import Mathlib

/-!
# Verification of the `kvs-rust` log-structured key-value store

A shallow embedding of the storage engine in `src/engines/kvs.rs` together
with the record codec it relies on.  Keys, values and file contents are
modelled as lists of bytes (`Nat`, each byte below 256 for real data; the
algebra does not depend on the bound).  The embedding mirrors the Rust code:

* `Command` is `client::Command`; `encodeCommand` reproduces the byte stream
  `serde_json::to_writer` emits for it (externally tagged enum, lowercase
  variant names, fields renamed to `k` / `v`, `serde_json`'s string escaping).
* `parseCommand` is the matching streaming decoder, restricted to the
  canonical bytes the writer emits (no whitespace tolerance, fixed field
  order); every byte the engine ever decodes was produced by `encodeCommand`,
  so this restriction is invisible to the engine-level theorems.
* The store state (`KvStore`) carries the index, the per-segment on-disk
  bytes, the reader pool, and the writer's buffer/position/uncompacted
  counter; operations `set` / `remove` / `get` / `run_compaction` /
  `close_stale_handles` / `load` / `open` are translated line by line.
-/

set_option linter.unusedVariables false

namespace Kvs

/-- `client::Command`: the record type serialised into the log. -/
inductive Command where
  | Ping : Command
  | Get : List Nat → Command
  | Set : List Nat → List Nat → Command
  | Rm : List Nat → Command
  | Version : Command
  deriving DecidableEq, Repr

/-- Lowercase hex digit, as `serde_json`'s `\u00XX` escapes use. -/
def hexDigit (n : Nat) : Nat :=
  if n < 10 then 48 + n else 87 + n

/-- Numeric value of a hex digit byte (both cases accepted, as in JSON). -/
def hexVal (c : Nat) : Option Nat :=
  if 48 ≤ c ∧ c ≤ 57 then some (c - 48)
  else if 97 ≤ c ∧ c ≤ 102 then some (c - 87)
  else if 65 ≤ c ∧ c ≤ 70 then some (c - 55)
  else none

/-- `serde_json`'s escaping of one byte inside a JSON string: quote and
backslash get two-byte escapes, the control characters BS HT LF FF CR get
their short escapes, remaining control bytes get `\u00XX`, everything else
is emitted verbatim. -/
def escapeByte (b : Nat) : List Nat :=
  if b = 34 then [92, 34]
  else if b = 92 then [92, 92]
  else if b = 8 then [92, 98]
  else if b = 9 then [92, 116]
  else if b = 10 then [92, 110]
  else if b = 12 then [92, 102]
  else if b = 13 then [92, 114]
  else if b < 32 then [92, 117, 48, 48, hexDigit (b / 16), hexDigit (b % 16)]
  else [b]

/-- Escape a whole string (list of bytes). -/
def escapeStr (s : List Nat) : List Nat :=
  s.foldr (fun b acc => escapeByte b ++ acc) []

/-- Bytes of an ASCII Lean string literal, used for the fixed JSON
punctuation (for ASCII text the UTF-8 bytes are the character codes). -/
def lit (s : String) : List Nat :=
  s.data.map Char.toNat

/-- The exact byte stream `serde_json::to_writer` produces for a `Command`
value: `{"set":{"k":"…","v":"…"}}`, `{"rm":{"k":"…"}}`, `{"get":{"k":"…"}}`,
`"ping"`, `"version"`. -/
def encodeCommand : Command → List Nat
  | .Set k v =>
      lit "\x7b\"set\":\x7b\"k\":\"" ++ escapeStr k ++ lit "\",\"v\":\"" ++ escapeStr v
        ++ lit "\"\x7d\x7d"
  | .Rm k => lit "\x7b\"rm\":\x7b\"k\":\"" ++ escapeStr k ++ lit "\"\x7d\x7d"
  | .Get k => lit "\x7b\"get\":\x7b\"k\":\"" ++ escapeStr k ++ lit "\"\x7d\x7d"
  | .Ping => lit "\"ping\""
  | .Version => lit "\"version\""

/-- Resolution of one escape character (the byte after a backslash) to the
byte it denotes, for the single-character JSON escapes. -/
def escChar (e : Nat) : Option Nat :=
  if e = 34 then some 34
  else if e = 92 then some 92
  else if e = 47 then some 47
  else if e = 98 then some 8
  else if e = 116 then some 9
  else if e = 110 then some 10
  else if e = 102 then some 12
  else if e = 114 then some 13
  else none

/-- Resolve the bytes following a backslash inside a JSON string: one escape
character, or `u00XX` with two significant hex digits; returns the denoted
byte and the remaining input. -/
def readEsc : List Nat → Option (Nat × List Nat)
  | [] => none
  | e :: rest =>
      match escChar e with
      | some c => some (c, rest)
      | none =>
          if e = 117 then
            match rest with
            | h1 :: h2 :: h3 :: h4 :: rest2 =>
                match hexVal h1, hexVal h2, hexVal h3, hexVal h4 with
                | some a, some b1, some c1, some d =>
                    let code := a * 4096 + b1 * 256 + c1 * 16 + d
                    if code < 128 then some (code, rest2) else none
                | _, _, _, _ => none
            | _ => none
          else none

/-- Parse the body of a JSON string (after the opening quote), returning the
unescaped content and the bytes after the closing quote.  The fuel argument
only serves totality; one unit is spent per produced character, so any fuel
above the input length is enough. -/
def parseStrBodyF : Nat → List Nat → Option (List Nat × List Nat)
  | 0, _ => none
  | _ + 1, [] => none
  | fuel + 1, b :: rest =>
      if b = 34 then some ([], rest)
      else if b = 92 then
        match readEsc rest with
        | some (c, rest2) => (parseStrBodyF fuel rest2).map (fun p => (c :: p.1, p.2))
        | none => none
      else if 32 ≤ b then (parseStrBodyF fuel rest).map (fun p => (b :: p.1, p.2))
      else none

/-- Parse the body of a JSON string (after the opening quote). -/
def parseStrBody (l : List Nat) : Option (List Nat × List Nat) :=
  parseStrBodyF (l.length + 1) l

/-- Strip a fixed byte sequence from the front, or fail. -/
def stripLit : List Nat → List Nat → Option (List Nat)
  | [], l => some l
  | _ :: _, [] => none
  | p :: ps, b :: bs => if p = b then stripLit ps bs else none

/-- Decode one `Command` from the front of a byte stream, returning the
record and the remaining bytes.  This is the model of one step of
`serde_json`'s `Deserializer::into_iter::<Command>()` on the canonical bytes
the engine writes. -/
def parseCommand (l : List Nat) : Option (Command × List Nat) :=
  match stripLit (lit "\x7b\"set\":\x7b\"k\":\"") l with
  | some r =>
      match parseStrBody r with
      | some (k, r1) =>
          match stripLit (lit ",\"v\":\"") r1 with
          | some r2 =>
              match parseStrBody r2 with
              | some (v, r3) =>
                  match stripLit (lit "\x7d\x7d") r3 with
                  | some r4 => some (.Set k v, r4)
                  | none => none
              | none => none
          | none => none
      | none => none
  | none =>
  match stripLit (lit "\x7b\"rm\":\x7b\"k\":\"") l with
  | some r =>
      match parseStrBody r with
      | some (k, r1) =>
          match stripLit (lit "\x7d\x7d") r1 with
          | some r2 => some (.Rm k, r2)
          | none => none
      | none => none
  | none =>
  match stripLit (lit "\x7b\"get\":\x7b\"k\":\"") l with
  | some r =>
      match parseStrBody r with
      | some (k, r1) =>
          match stripLit (lit "\x7d\x7d") r1 with
          | some r2 => some (.Get k, r2)
          | none => none
      | none => none
  | none =>
  match stripLit (lit "\"ping\"") l with
  | some r => some (.Ping, r)
  | none =>
  match stripLit (lit "\"version\"") l with
  | some r => some (.Version, r)
  | none => none

/-- Decode exactly one record out of a complete byte range, as
`serde_json::from_reader` does on a `take(len)` sub-reader: one value, then
end of input. -/
def decodeExact (l : List Nat) : Option Command :=
  match parseCommand l with
  | some (c, []) => some c
  | _ => none

/-! ## Codec round-trip -/

theorem hexVal_hexDigit {n : Nat} (h : n < 16) : hexVal (hexDigit n) = some n := by
  unfold hexDigit hexVal
  rcases Nat.lt_or_ge n 10 with h10 | h10
  · rw [if_pos h10, if_pos (by omega : 48 ≤ 48 + n ∧ 48 + n ≤ 57)]
    congr 1
    omega
  · rw [if_neg (by omega : ¬ n < 10), if_neg (by omega : ¬ (48 ≤ 87 + n ∧ 87 + n ≤ 57)),
      if_pos (by omega : 97 ≤ 87 + n ∧ 87 + n ≤ 102)]
    congr 1
    omega

theorem parseStrBodyF_escape (s : List Nat) (rest : List Nat) :
    ∀ fuel, s.length < fuel →
      parseStrBodyF fuel (escapeStr s ++ 34 :: rest) = some (s, rest) := by
  induction s with
  | nil =>
      intro fuel hfuel
      obtain ⟨f, rfl⟩ : ∃ f, fuel = f + 1 := ⟨fuel - 1, by omega⟩
      have h : escapeStr [] ++ 34 :: rest = 34 :: rest := rfl
      rw [h]
      simp [parseStrBodyF]
  | cons b bs ih =>
      intro fuel hfuel
      obtain ⟨f, rfl⟩ : ∃ f, fuel = f + 1 := ⟨fuel - 1, by omega⟩
      have hihf : bs.length < f := by
        simp only [List.length_cons] at hfuel
        omega
      have hesc : escapeStr (b :: bs) ++ 34 :: rest
          = escapeByte b ++ (escapeStr bs ++ 34 :: rest) := by
        show (escapeByte b ++ escapeStr bs) ++ 34 :: rest = _
        rw [List.append_assoc]
      rw [hesc]
      unfold escapeByte
      by_cases h34 : b = 34
      · subst h34
        rw [if_pos rfl]
        simp [parseStrBodyF, readEsc, escChar, ih _ hihf]
      · rw [if_neg h34]
        by_cases h92 : b = 92
        · subst h92
          rw [if_pos rfl]
          simp [parseStrBodyF, readEsc, escChar, ih _ hihf]
        · rw [if_neg h92]
          by_cases h8 : b = 8
          · subst h8
            rw [if_pos rfl]
            simp [parseStrBodyF, readEsc, escChar, ih _ hihf]
          · rw [if_neg h8]
            by_cases h9 : b = 9
            · subst h9
              rw [if_pos rfl]
              simp [parseStrBodyF, readEsc, escChar, ih _ hihf]
            · rw [if_neg h9]
              by_cases h10 : b = 10
              · subst h10
                rw [if_pos rfl]
                simp [parseStrBodyF, readEsc, escChar, ih _ hihf]
              · rw [if_neg h10]
                by_cases h12 : b = 12
                · subst h12
                  rw [if_pos rfl]
                  simp [parseStrBodyF, readEsc, escChar, ih _ hihf]
                · rw [if_neg h12]
                  by_cases h13 : b = 13
                  · subst h13
                    rw [if_pos rfl]
                    simp [parseStrBodyF, readEsc, escChar, ih _ hihf]
                  · rw [if_neg h13]
                    by_cases hc : b < 32
                    · rw [if_pos hc]
                      have hdiv : b / 16 < 16 := by omega
                      have hmod : b % 16 < 16 := Nat.mod_lt _ (by omega)
                      have h48 : hexVal 48 = some 0 := by simp [hexVal]
                      have hlt : b / 16 * 16 + b % 16 < 128 := by omega
                      have heq : b / 16 * 16 + b % 16 = b := by omega
                      have hb128 : b < 128 := by omega
                      simp [parseStrBodyF, readEsc, escChar, h48,
                        hexVal_hexDigit hdiv, hexVal_hexDigit hmod, hlt, heq,
                        hb128, ih _ hihf]
                    · rw [if_neg hc]
                      have hge : 32 ≤ b := by omega
                      simp [parseStrBodyF, h34, h92, hge, ih _ hihf]

theorem escapeStr_length_le (s : List Nat) : s.length ≤ (escapeStr s).length := by
  induction s with
  | nil => simp [escapeStr]
  | cons b bs ih =>
      have hesc : escapeStr (b :: bs) = escapeByte b ++ escapeStr bs := rfl
      have hpos : 1 ≤ (escapeByte b).length := by
        unfold escapeByte
        repeat' split
        all_goals simp
      rw [hesc]
      simp only [List.length_append, List.length_cons]
      omega

theorem parseStrBody_escape (s : List Nat) (rest : List Nat) :
    parseStrBody (escapeStr s ++ 34 :: rest) = some (s, rest) := by
  have hlen : s.length < (escapeStr s ++ 34 :: rest).length + 1 := by
    have := escapeStr_length_le s
    simp only [List.length_append, List.length_cons]
    omega
  exact parseStrBodyF_escape s rest _ hlen

theorem stripLit_self (p l : List Nat) : stripLit p (p ++ l) = some l := by
  induction p with
  | nil => rfl
  | cons a ps ih => simp [stripLit, ih]

theorem parseCommand_encode (c : Command) (rest : List Nat) :
    parseCommand (encodeCommand c ++ rest) = some (c, rest) := by
  cases c with
  | Set k v =>
      simp [parseCommand, encodeCommand, lit, stripLit, parseStrBody_escape]
  | Rm k =>
      simp [parseCommand, encodeCommand, lit, stripLit, parseStrBody_escape]
  | Get k =>
      simp [parseCommand, encodeCommand, lit, stripLit, parseStrBody_escape]
  | Ping =>
      simp [parseCommand, encodeCommand, lit, stripLit]
  | Version =>
      simp [parseCommand, encodeCommand, lit, stripLit]

theorem decodeExact_encode (c : Command) : decodeExact (encodeCommand c) = some c := by
  have h := parseCommand_encode c []
  rw [List.append_nil] at h
  simp [decodeExact, h]

/-! ## Data model: positions, errors, files, index -/

/-- `CommandPos`: where a record lives — segment number, byte offset, byte
length (`src/engines/kvs.rs` lines 16–20). -/
structure CommandPos where
  walfile_num : Nat
  pos : Nat
  len : Nat
  deriving DecidableEq, Repr

/-- `KvsError` (`src/error.rs`): the repository's error enum.  `Io` and
`Serde` carry payloads in Rust that the model does not inspect. -/
inductive KvsError where
  | Message : String → KvsError
  | KeyNotFound : KvsError
  | InvalidCommand : KvsError
  | Io : KvsError
  | Serde : KvsError
  deriving DecidableEq, Repr

/-- Decidable equality of results, for evaluating the model on inputs. -/
instance {e a : Type} [DecidableEq e] [DecidableEq a] : DecidableEq (Except e a) :=
  fun x y =>
    match x, y with
    | .ok u, .ok w =>
        if h : u = w then .isTrue (by rw [h]) else .isFalse (by intro hc; cases hc; exact h rfl)
    | .error u, .error w =>
        if h : u = w then .isTrue (by rw [h]) else .isFalse (by intro hc; cases hc; exact h rfl)
    | .ok _, .error _ => .isFalse (by intro hc; cases hc)
    | .error _, .ok _ => .isFalse (by intro hc; cases hc)

/-- Whether an error is the catch-all `KvsError::Message` string kind. -/
def KvsError.isMessageKind : KvsError → Bool
  | .Message _ => true
  | _ => false

/-- The on-disk directory: flushed byte content per segment number
(`wal_<n>.log`), as an association list keyed by segment number. -/
abbrev Files := List (Nat × List Nat)

/-- The in-memory index `DashMap<String, CommandPos>`, as an association
list from key bytes to positions. -/
abbrev Index := List (List Nat × CommandPos)

/-- Content of segment `n`, `none` when no such file exists. -/
def getFile : Files → Nat → Option (List Nat)
  | [], _ => none
  | (m, c) :: rest, n => if m = n then some c else getFile rest n

/-- Write segment `n`'s content (replacing an existing entry, else adding). -/
def setFile : Files → Nat → List Nat → Files
  | [], n, c => [(n, c)]
  | (m, x) :: rest, n, c =>
      if m = n then (n, c) :: rest else (m, x) :: setFile rest n c

/-- Delete segment `n` (first matching entry), as `fs::remove_file`. -/
def removeFileEntry : Files → Nat → Files
  | [], _ => []
  | (m, x) :: rest, n => if m = n then rest else (m, x) :: removeFileEntry rest n

/-- Index lookup, as `DashMap::get`. -/
def idxLookup : Index → List Nat → Option CommandPos
  | [], _ => none
  | (k, cp) :: rest, key => if k = key then some cp else idxLookup rest key

/-- Index insert, as `DashMap::insert`: replaces in place and returns the
displaced value. -/
def idxInsert : Index → List Nat → CommandPos → Option CommandPos × Index
  | [], key, cp => (none, [(key, cp)])
  | (k, old) :: rest, key, cp =>
      if k = key then (some old, (key, cp) :: rest)
      else
        let r := idxInsert rest key cp
        (r.1, (k, old) :: r.2)

/-- Index removal, as `DashMap::remove`: drops the entry and returns the
displaced value. -/
def idxRemove : Index → List Nat → Option CommandPos × Index
  | [], _ => (none, [])
  | (k, cp) :: rest, key =>
      if k = key then (some cp, rest)
      else
        let r := idxRemove rest key
        (r.1, (k, cp) :: r.2)

/-! ## Store state

One record for the pieces `KvStore` shares: the index, the reader pool
(`KvStoreReader.readers`, the set of segment numbers with an open read
handle), the files on disk, and the `KvStoreWriter` fields `active_wal`,
the `BufWriterWithPos` buffer (`wbuf`, bytes written but not yet flushed)
and position (`wpos`), and `uncompacted`.  `BufWriterWithPos.pos` advances
on every buffered write; only `flush` moves buffered bytes into the file. -/

structure KvStore where
  index : Index
  files : Files
  readers : List Nat
  active_wal : Nat
  wbuf : List Nat
  wpos : Nat
  uncompacted : Nat
  deriving DecidableEq, Repr

/-- The active segment's on-disk bytes. -/
def KvStore.activeDisk (s : KvStore) : List Nat :=
  (getFile s.files s.active_wal).getD []

/-- `self.writer.flush()`: move the buffered bytes into the active segment's
file (appending — the file is opened in append mode). -/
def writerFlush (s : KvStore) : KvStore :=
  { s with files := setFile s.files s.active_wal (s.activeDisk ++ s.wbuf),
           wbuf := [] }

/-- `KvStoreWriter::set` (`src/engines/kvs.rs` lines 348–367): record the
writer position, serialise the `Set` record, flush, and insert the position
triple into the index, crediting a displaced entry's length to
`uncompacted`. -/
def KvStoreWriter.set (s : KvStore) (key value : List Nat) : KvStore :=
  let enc := encodeCommand (.Set key value)
  let pos := s.wpos
  let s1 := writerFlush { s with wbuf := s.wbuf ++ enc, wpos := s.wpos + enc.length }
  let new_pos := s1.wpos
  let cmd_pos : CommandPos := ⟨s1.active_wal, pos, new_pos - pos⟩
  let r := idxInsert s1.index key cmd_pos
  { s1 with index := r.2,
            uncompacted := s1.uncompacted + (match r.1 with
              | some old => old.len
              | none => 0) }

/-- `KvStoreWriter::remove` (`src/engines/kvs.rs` lines 369–378): serialise
the tombstone into the buffered writer (no flush), then remove the index
entry; if the key was absent, fail with `KeyNotFound` (the tombstone bytes
stay in the buffer either way). -/
def KvStoreWriter.remove (s : KvStore) (key : List Nat) :
    Except KvsError Unit × KvStore :=
  let enc := encodeCommand (.Rm key)
  let s1 := { s with wbuf := s.wbuf ++ enc, wpos := s.wpos + enc.length }
  match idxRemove s1.index key with
  | (some old, idx) =>
      (.ok (), { s1 with index := idx, uncompacted := s1.uncompacted + old.len })
  | (none, _) => (.error .KeyNotFound, s1)

/-- `KvStoreReader::get` (`src/engines/kvs.rs` lines 260–272): look up the
reader for the position's segment (a missing reader is the string error
`"KvStoreReader: Reader not found"`), seek to `pos`, read up to `len` bytes,
decode one record; a `Set` yields its value, anything else is
`InvalidCommand`, and a failed decode surfaces the `Serde` error. -/
def KvStoreReader.get (s : KvStore) (cmd_pos : CommandPos) :
    Except KvsError (Option (List Nat)) :=
  if cmd_pos.walfile_num ∈ s.readers then
    match getFile s.files cmd_pos.walfile_num with
    | some content =>
        match decodeExact ((content.drop cmd_pos.pos).take cmd_pos.len) with
        | some (.Set _ value) => .ok (some value)
        | some _ => .error .InvalidCommand
        | none => .error .Serde
    | none => .error .Io
  else .error (.Message "KvStoreReader: Reader not found")

/-- `KvStoreReader::add_reader` (`src/engines/kvs.rs` lines 292–303): open a
read handle on segment `walfile_num`; fails when one already exists. -/
def KvStoreReader.add_reader (s : KvStore) (walfile_num : Nat) :
    Except KvsError KvStore :=
  if walfile_num ∈ s.readers then
    .error (.Message "KvStoreReader: Reader already exists")
  else .ok { s with readers := s.readers ++ [walfile_num] }

/-- `KvsEngine::get` for `KvStore` (`src/engines/kvs.rs` lines 98–103): an
absent key is a successful `none`;  a present key delegates to the reader
pool. -/
def KvStore.get (s : KvStore) (key : List Nat) :
    Except KvsError (Option (List Nat)) :=
  match idxLookup s.index key with
  | some cp => KvStoreReader.get s cp
  | none => .ok none

/-- `KvsEngine::set` for `KvStore`: lock the writer and delegate. -/
def KvStore.set (s : KvStore) (key value : List Nat) : KvStore :=
  KvStoreWriter.set s key value

/-- `KvsEngine::remove` for `KvStore`: lock the writer and delegate,
surfacing `KeyNotFound`. -/
def KvStore.remove (s : KvStore) (key : List Nat) :
    Except KvsError Unit × KvStore :=
  KvStoreWriter.remove s key

/-! ## Compaction -/

/-- `MAX_WAL_SIZE_THRESHOLD` (`src/engines/kvs.rs` line 22). -/
def MAX_WAL_SIZE_THRESHOLD : Nat := 1024 * 1024

/-- The compaction monitor thread's trigger condition (`src/engines/kvs.rs`
line 63): `writer_guard.uncompacted > MAX_WAL_SIZE_THRESHOLD`. -/
def compactionTriggered (uncompacted : Nat) : Bool :=
  uncompacted > MAX_WAL_SIZE_THRESHOLD

/-- `new_log_file` (`src/engines/kvs.rs` lines 119–127): open the segment's
file with `create(true).append(true)` — the file is created when missing and
kept (not truncated) when present. -/
def new_log_file (files : Files) (n : Nat) : Files :=
  setFile files n ((getFile files n).getD [])

/-- Loop body of `KvStoreReader::close_stale_handles` (lines 312–316): for
each stale segment number in order, `fs::remove_file` then drop the reader;
a removal failure (modelled by `failRm`) propagates with `?` as an `Io`
error, keeping the mutations already made. -/
def closeStaleGo (failRm : Nat → Bool) :
    List Nat → Files → List Nat → Except KvsError Unit × Files × List Nat
  | [], files, readers => (.ok (), files, readers)
  | n :: rest, files, readers =>
      if failRm n then (.error .Io, files, readers)
      else closeStaleGo failRm rest (removeFileEntry files n) (readers.erase n)

/-- `KvStoreReader::close_stale_handles` (`src/engines/kvs.rs` lines
305–318): collect the reader keys, keep those below the compaction segment
number, and process them in order. -/
def close_stale_handles (failRm : Nat → Bool) (compaction_walfile_num : Nat)
    (files : Files) (readers : List Nat) :
    Except KvsError Unit × Files × List Nat :=
  closeStaleGo failRm (readers.filter (· < compaction_walfile_num)) files readers

/-- The compaction copy loop (`src/engines/kvs.rs` lines 392–414): walk the
index entries in order; entries at segments `≥ compaction_walfile_num` are
skipped, the rest have their byte range copied to the compaction segment and
are rewritten in place to `(compaction_walfile_num, pos, len)` with `pos`
advanced by the copied length.  A missing reader is the
`panic!("reader not found …")` on line 399, modelled as an error. -/
def compactLoop (c : Nat) (files : Files) (readers : List Nat) :
    Index → Nat → Except KvsError (Index × List Nat)
  | [], _ => .ok ([], [])
  | (k, cp) :: rest, pos =>
      if c ≤ cp.walfile_num then
        (compactLoop c files readers rest pos).map
          (fun r => ((k, cp) :: r.1, r.2))
      else if cp.walfile_num ∈ readers then
        match getFile files cp.walfile_num with
        | some content =>
            let slice := (content.drop cp.pos).take cp.len
            (compactLoop c files readers rest (pos + slice.length)).map
              (fun r => ((k, ⟨c, pos, slice.length⟩) :: r.1, slice ++ r.2))
        | none => .error (.Message "panic: reader not found for the command that was in the index")
      else .error (.Message "panic: reader not found for the command that was in the index")

/-- The file system state after the segment rotation at the top of
`run_compaction` (lines 381–387): the compaction segment's file is created,
the old writer is dropped — which flushes its buffer into the old active
segment — and the new active segment's file is created. -/
def rotatedFiles (s : KvStore) : Files :=
  let f1 := new_log_file s.files (s.active_wal + 1)
  let f2 := setFile f1 s.active_wal (((getFile f1 s.active_wal).getD []) ++ s.wbuf)
  new_log_file f2 (s.active_wal + 2)

/-- `KvStoreWriter::run_compaction` (`src/engines/kvs.rs` lines 380–422):
reserve `C = active + 1` and `A' = active + 2`, rotate the writer onto `A'`,
register a reader for `A'`, copy every live record from segments `< C` into
`C` while re-pointing the index in place, flush `C`, register its reader,
retire all segments `< C`, and zero `uncompacted`.  Errors propagate with
the mutations made so far kept. -/
def KvStoreWriter.run_compaction (failRm : Nat → Bool) (s : KvStore) :
    Except KvsError Unit × KvStore :=
  let a := s.active_wal
  let c := a + 1
  let s1 : KvStore := { s with files := rotatedFiles s, active_wal := a + 2,
                               wbuf := [], wpos := 0 }
  match KvStoreReader.add_reader s1 (a + 2) with
  | .error e => (.error e, s1)
  | .ok s2 =>
      match compactLoop c s2.files s2.readers s2.index 0 with
      | .error e => (.error e, s2)
      | .ok (idx, cbytes) =>
          let s3 : KvStore :=
            { s2 with index := idx,
                      files := setFile s2.files c
                        (((getFile s2.files c).getD []) ++ cbytes) }
          match KvStoreReader.add_reader s3 c with
          | .error e => (.error e, s3)
          | .ok s4 =>
              match close_stale_handles failRm c s4.files s4.readers with
              | (.ok _, files1, readers1) =>
                  (.ok (), { s4 with files := files1, readers := readers1,
                                     uncompacted := 0 })
              | (.error e, files1, readers1) =>
                  (.error e, { s4 with files := files1, readers := readers1 })

/-! ## Startup replay and `open` -/

/-- One record step of `load` (`src/engines/kvs.rs` lines 129–164): stream
records out of a segment, inserting `Set` positions (crediting displaced
lengths to the stale-byte count), removing on `Rm` (crediting the displaced
length, or the tombstone's own length when nothing was displaced), and
ignoring other commands.  The fuel argument only serves totality: every
record consumes at least one byte, so any fuel above the content length is
enough. -/
def loadF : Nat → Nat → List Nat → Nat → Index → Nat → Except KvsError (Index × Nat)
  | 0, _, _, _, _, _ => .error (.Message "out of fuel")
  | _ + 1, _, [], _, idx, unc => .ok (idx, unc)
  | fuel + 1, walfile_num, rem, pos, idx, unc =>
      match parseCommand rem with
      | none => .error .Serde
      | some (cmd, rest) =>
          let new_pos := pos + (rem.length - rest.length)
          match cmd with
          | .Set key _ =>
              let r := idxInsert idx key ⟨walfile_num, pos, new_pos - pos⟩
              loadF fuel walfile_num rest new_pos r.2
                (unc + (match r.1 with | some old => old.len | none => 0))
          | .Rm key =>
              let r := idxRemove idx key
              match r.1 with
              | some old => loadF fuel walfile_num rest new_pos r.2 (unc + old.len)
              | none => loadF fuel walfile_num rest new_pos idx (unc + (new_pos - pos))
          | _ => loadF fuel walfile_num rest new_pos idx unc

/-- `load` (`src/engines/kvs.rs` lines 129–164): replay one segment into the
index, returning the rebuilt index and the stale-byte total it computed. -/
def load (walfile_num : Nat) (content : List Nat) (idx : Index) :
    Except KvsError (Index × Nat) :=
  loadF (content.length + 1) walfile_num content 0 idx 0

/-- `KvStoreReader::from_walfiles` (`src/engines/kvs.rs` lines 274–290):
open and replay each discovered segment in order, registering a reader for
it.  The stale-byte total `load` returns is discarded (line 283 ignores the
`Ok` value). -/
def from_walfiles : List Nat → Files → Index → List Nat →
    Except KvsError (Index × List Nat)
  | [], _, idx, readers => .ok (idx, readers)
  | n :: rest, files, idx, readers =>
      match getFile files n with
      | none => .error (.Message "panic: File::open failed")
      | some content =>
          match load n content idx with
          | .ok (idx1, _uncompacted_size) =>
              from_walfiles rest files idx1 (readers ++ [n])
          | .error e => .error e

/-- Insert into a sorted list of numbers. -/
def insortNat (n : Nat) : List Nat → List Nat
  | [] => [n]
  | m :: rest => if n ≤ m then n :: m :: rest else m :: insortNat n rest

/-- Ascending sort (`sort_unstable` on a `Vec<u64>`). -/
def sortNats : List Nat → List Nat
  | [] => []
  | n :: rest => insortNat n (sortNats rest)

/-- `KvStore::open` (`src/engines/kvs.rs` lines 35–80), taken on the scanned
directory as a segment-number-to-content map (the file-name scan itself is
`sorted_walfile_nums`, modelled separately below): replay all segments in
ascending order, pick `last + 1` (or `1` on an empty directory) as the
active segment, create its file, register its reader, and start the writer
with `uncompacted = 0` (`KvStoreWriter::new`, lines 331–346). -/
def KvStore.open (files : Files) : Except KvsError KvStore :=
  let walfile_nums := sortNats (files.map Prod.fst)
  match from_walfiles walfile_nums files [] [] with
  | .error e => .error e
  | .ok (idx, readers) =>
      let current := walfile_nums.getLast?.getD 0 + 1
      let files1 := new_log_file files current
      if current ∈ readers then
        .error (.Message "KvStoreReader: Reader already exists")
      else
        .ok { index := idx, files := files1, readers := readers ++ [current],
              active_wal := current, wbuf := [], wpos := 0, uncompacted := 0 }

/-! ## Directory scan (`sorted_walfile_nums`) -/

/-- Helper for `Path::extension`: remember the characters after the most
recent dot while scanning. -/
def extOfAux : List Char → Option (List Char) → Option (List Char)
  | [], acc => acc
  | c :: rest, acc =>
      if c = '.' then extOfAux rest (some rest) else extOfAux rest acc

/-- `Path::extension` on a file name: the portion after the final `.`,
except that a leading dot with no later dot gives no extension. -/
def extension : List Char → Option (List Char)
  | [] => none
  | _ :: rest => extOfAux rest none

/-- One round of Rust's pattern strip used by `trim_start_matches`. -/
def trimStartMatchesF : Nat → List Char → List Char → List Char
  | 0, _, s => s
  | fuel + 1, pat, s =>
      if pat ≠ [] ∧ pat.isPrefixOf s then
        trimStartMatchesF fuel pat (s.drop pat.length)
      else s

/-- `str::trim_start_matches(pat)`: repeatedly strip the pattern from the
front while it matches. -/
def trimStartMatches (pat s : List Char) : List Char :=
  trimStartMatchesF (s.length + 1) pat s

/-- `str::trim_end_matches(pat)`: repeatedly strip the pattern from the end
while it matches. -/
def trimEndMatches (pat s : List Char) : List Char :=
  (trimStartMatches pat.reverse s.reverse).reverse

/-- Digit run of `u64::from_str`: accumulate decimal digits, reject anything
else. -/
def parseU64Digits : List Char → Nat → Option Nat
  | [], acc => some acc
  | c :: rest, acc =>
      if '0' ≤ c ∧ c ≤ '9' then parseU64Digits rest (acc * 10 + (c.toNat - 48))
      else none

/-- `u64::from_str` without the sign: a non-empty digit run whose value fits
in 64 bits (a value at or above `2^64` overflows, which Rust rejects). -/
def parseU64Core (s : List Char) : Option Nat :=
  match s with
  | [] => none
  | _ =>
      match parseU64Digits s 0 with
      | some v => if v < 2 ^ 64 then some v else none
      | none => none

/-- `str::parse::<u64>()`: an optional leading `+`, then digits. -/
def parseU64 : List Char → Option Nat
  | [] => none
  | c :: rest => if c = '+' then parseU64Core rest else parseU64Core (c :: rest)

/-- The per-file-name computation of `sorted_walfile_nums`
(`src/engines/kvs.rs` lines 166–181): keep names whose `extension()` is
`log`, strip every leading `wal_` and every trailing `.log`, and parse the
remainder as `u64` (failures are dropped by the `flatten`). -/
def walfileNumOfName (name : List Char) : Option Nat :=
  if extension name = some ("log".data) then
    parseU64 (trimEndMatches (".log".data) (trimStartMatches ("wal_".data) name))
  else none

/-- `sorted_walfile_nums` (`src/engines/kvs.rs` lines 166–181), applied to
the names of the regular files in the directory (the `is_file` filter is
the caller handing us only regular files): parse each name, keep the
successes, sort ascending. -/
def sorted_walfile_nums (names : List (List Char)) : List Nat :=
  sortNats (names.filterMap walfileNumOfName)

/-- Strip a pattern from the front exactly once, or fail. -/
def stripOnce (pat s : List Char) : Option (List Char) :=
  if pat.isPrefixOf s then some (s.drop pat.length) else none

/-- Modelled from the spec ("Scans a directory for files matching
`wal_<digits>.log`, parses `<digits>` as an unsigned integer, and returns
the sorted ascending list"): a name contributes exactly when it is literally
`wal_` ++ digits ++ `.log` with a non-empty digit run. -/
def specWalfileNumOfName (name : List Char) : Option Nat :=
  match stripOnce ("wal_".data) name with
  | none => none
  | some r =>
      match stripOnce (".log".data.reverse) r.reverse with
      | none => none
      | some m => parseU64Core m.reverse

/-- Modelled from the spec: the segment-directory scan as §4.2 words it. -/
def spec_walfile_nums (names : List (List Char)) : List Nat :=
  sortNats (names.filterMap specWalfileNumOfName)

/-! ## Helper lemmas on the association lists -/

theorem getFile_setFile_self (fs : Files) (n : Nat) (c : List Nat) :
    getFile (setFile fs n c) n = some c := by
  induction fs with
  | nil => simp [setFile, getFile]
  | cons e rest ih =>
      obtain ⟨m, x⟩ := e
      by_cases h : m = n
      · simp [setFile, getFile, h]
      · simp [setFile, getFile, h, ih]

theorem getFile_setFile_ne (fs : Files) {m n : Nat} (c : List Nat) (h : m ≠ n) :
    getFile (setFile fs n c) m = getFile fs m := by
  have hnm : n ≠ m := Ne.symm h
  induction fs with
  | nil => simp [setFile, getFile, hnm]
  | cons e rest ih =>
      obtain ⟨p, x⟩ := e
      by_cases hp : p = n
      · subst hp
        simp [setFile, getFile, hnm]
      · simp [setFile, getFile, hp, ih]

theorem getFile_removeFileEntry_ne (fs : Files) {m n : Nat} (h : m ≠ n) :
    getFile (removeFileEntry fs n) m = getFile fs m := by
  have hnm : n ≠ m := Ne.symm h
  induction fs with
  | nil => simp [removeFileEntry]
  | cons e rest ih =>
      obtain ⟨p, x⟩ := e
      by_cases hp : p = n
      · subst hp
        simp [removeFileEntry, getFile, hnm]
      · simp [removeFileEntry, getFile, hp, ih]

theorem idxLookup_idxInsert_self (idx : Index) (key : List Nat) (cp : CommandPos) :
    idxLookup (idxInsert idx key cp).2 key = some cp := by
  induction idx with
  | nil => simp [idxInsert, idxLookup]
  | cons e rest ih =>
      obtain ⟨k, old⟩ := e
      by_cases h : k = key
      · simp [idxInsert, idxLookup, h]
      · simp [idxInsert, idxLookup, h, ih]

theorem idxRemove_fst_of_lookup_none {idx : Index} {key : List Nat}
    (h : idxLookup idx key = none) : (idxRemove idx key).1 = none := by
  induction idx with
  | nil => simp [idxRemove]
  | cons e rest ih =>
      obtain ⟨k, cp⟩ := e
      by_cases hk : k = key
      · simp [idxLookup, hk] at h
      · simp [idxLookup, hk] at h
        simp [idxRemove, hk, ih h]

/-- Evaluate `KvStoreReader::get` when the reader exists and the byte range
decodes to a `Set` record: the value comes back. -/
theorem KvStoreReader_get_set_eval {s : KvStore} {cp : CommandPos}
    {content k v : List Nat}
    (hmem : cp.walfile_num ∈ s.readers)
    (hfile : getFile s.files cp.walfile_num = some content)
    (hdec : decodeExact ((content.drop cp.pos).take cp.len) = some (.Set k v)) :
    KvStoreReader.get s cp = .ok (some v) := by
  simp only [KvStoreReader.get, if_pos hmem, hfile, hdec]

/-! ## C1: `set(k,v); get(k) = Some(v)` -/

/-- C1.  For every key `k` and value `v`, `set(k,v)` followed by `get(k)`
returns `Some(v)`: the position `set` records in the index — active segment
number, the writer position before encoding, and the number of bytes
written — locates exactly the encoded `Set` record inside the active
segment's on-disk bytes, and decoding that byte range yields `v`.  The two
hypotheses hold in every reachable state: the active segment has a reader
(`open` and `run_compaction` register it), and the writer position equals
flushed length plus buffered length (it starts at `0 = 0 + 0` and every
write maintains it). -/
theorem claim_C1_set_then_get (s : KvStore) (k v : List Nat)
    (h1 : s.active_wal ∈ s.readers)
    (h2 : s.wpos = s.activeDisk.length + s.wbuf.length) :
    idxLookup (KvStore.set s k v).index k
        = some ⟨s.active_wal, s.wpos, (encodeCommand (.Set k v)).length⟩ ∧
    (((KvStore.set s k v).activeDisk).drop s.wpos).take
        (encodeCommand (.Set k v)).length = encodeCommand (.Set k v) ∧
    KvStore.get (KvStore.set s k v) k = .ok (some v) := by
  have hlen : s.wpos + (encodeCommand (.Set k v)).length - s.wpos
      = (encodeCommand (.Set k v)).length := by omega
  have hfiles : (KvStore.set s k v).files
      = setFile s.files s.active_wal
          (s.activeDisk ++ (s.wbuf ++ encodeCommand (.Set k v))) := by
    simp [KvStore.set, KvStoreWriter.set, writerFlush, KvStore.activeDisk]
  have hactive : (KvStore.set s k v).active_wal = s.active_wal := by
    simp [KvStore.set, KvStoreWriter.set, writerFlush]
  have hreaders : (KvStore.set s k v).readers = s.readers := by
    simp [KvStore.set, KvStoreWriter.set, writerFlush]
  have hidx : (KvStore.set s k v).index
      = (idxInsert s.index k
          ⟨s.active_wal, s.wpos, (encodeCommand (.Set k v)).length⟩).2 := by
    simp [KvStore.set, KvStoreWriter.set, writerFlush, hlen]
  have hdisk : (KvStore.set s k v).activeDisk
      = s.activeDisk ++ (s.wbuf ++ encodeCommand (.Set k v)) := by
    rw [KvStore.activeDisk, hfiles, hactive, getFile_setFile_self]
    rfl
  have hlook : idxLookup (KvStore.set s k v).index k
      = some ⟨s.active_wal, s.wpos, (encodeCommand (.Set k v)).length⟩ := by
    rw [hidx, idxLookup_idxInsert_self]
  have hslice : (((KvStore.set s k v).activeDisk).drop s.wpos).take
      (encodeCommand (.Set k v)).length = encodeCommand (.Set k v) := by
    rw [hdisk, h2, ← List.append_assoc]
    have hdrop : ((s.activeDisk ++ s.wbuf) ++ encodeCommand (.Set k v)).drop
        (s.activeDisk.length + s.wbuf.length) = encodeCommand (.Set k v) := by
      rw [← List.length_append s.activeDisk s.wbuf]
      exact List.drop_left (s.activeDisk ++ s.wbuf) (encodeCommand (.Set k v))
    rw [hdrop, List.take_length]
  refine ⟨hlook, hslice, ?_⟩
  have hget : getFile (KvStore.set s k v).files s.active_wal
      = some ((KvStore.set s k v).activeDisk) := by
    rw [hfiles, getFile_setFile_self, hdisk]
  have hfinal : KvStore.get (KvStore.set s k v) k
      = KvStoreReader.get (KvStore.set s k v)
          ⟨s.active_wal, s.wpos, (encodeCommand (.Set k v)).length⟩ := by
    simp only [KvStore.get, hlook]
  rw [hfinal]
  have hmem : (⟨s.active_wal, s.wpos, (encodeCommand (.Set k v)).length⟩ :
      CommandPos).walfile_num ∈ (KvStore.set s k v).readers := by
    rw [hreaders]
    exact h1
  have hdec : decodeExact ((((KvStore.set s k v).activeDisk).drop
      (⟨s.active_wal, s.wpos, (encodeCommand (.Set k v)).length⟩ :
        CommandPos).pos).take
      (⟨s.active_wal, s.wpos, (encodeCommand (.Set k v)).length⟩ :
        CommandPos).len) = some (.Set k v) := by
    show decodeExact ((((KvStore.set s k v).activeDisk).drop s.wpos).take
      (encodeCommand (.Set k v)).length) = some (.Set k v)
    rw [hslice, decodeExact_encode]
  exact KvStoreReader_get_set_eval hmem hget hdec

/-- C1 witness: on the freshly opened empty store, `set("a","b")` then
`get("a")` returns `Some("b")`. -/
theorem claim_C1_witness :
    (1 : Nat) ∈ ([1] : List Nat) ∧
    (idxLookup (KvStore.set ⟨[], [(1, [])], [1], 1, [], 0, 0⟩ [97] [98]).index [97]
        = some ⟨1, 0, (encodeCommand (.Set [97] [98])).length⟩ ∧
      (((KvStore.set ⟨[], [(1, [])], [1], 1, [], 0, 0⟩ [97] [98]).activeDisk).drop 0).take
          (encodeCommand (.Set [97] [98])).length = encodeCommand (.Set [97] [98]) ∧
      KvStore.get (KvStore.set ⟨[], [(1, [])], [1], 1, [], 0, 0⟩ [97] [98]) [97]
        = .ok (some [98])) :=
  ⟨by decide, claim_C1_set_then_get ⟨[], [(1, [])], [1], 1, [], 0, 0⟩ [97] [98]
    (by decide) (by decide)⟩

/-! ## C2, C3: `remove` on an absent key; durability of a successful `remove` -/

/-- The store `KvStore::open` builds on an empty directory: empty index,
one empty active segment `wal_1.log` with its reader, writer at position 0. -/
def sampleStore : KvStore := ⟨[], [(1, [])], [1], 1, [], 0, 0⟩

theorem sampleStore_open : KvStore.open [] = .ok sampleStore := by decide

/-- C2 counterexample: on the freshly opened store, `remove("a")` fails with
`KeyNotFound` as claimed, but it does not "write nothing" — the serialised
tombstone is written to the buffered writer before the index is consulted
(`KvStoreWriter::remove` serialises first, line 371), so the writer position
advances by the 16 tombstone bytes instead of staying unchanged. -/
theorem claim_C2_counterexample :
    (KvStore.remove sampleStore [97]).1 = .error .KeyNotFound ∧
    (KvStore.remove sampleStore [97]).2.wpos = 16 ∧
    sampleStore.wpos = 0 := by
  decide

/-- C2 (amended).  `remove(k)` on a key absent from the index fails with
`KeyNotFound`, leaves the index, the uncompacted counter and the on-disk
files unchanged, and a subsequent `get(k)` returns `None` — but the
serialised tombstone is appended to the writer's buffer first, so the
writer position advances by the tombstone's encoded length. -/
theorem claim_C2_remove_absent (s : KvStore) (k : List Nat)
    (h : idxLookup s.index k = none) :
    (KvStore.remove s k).1 = .error .KeyNotFound ∧
    (KvStore.remove s k).2.index = s.index ∧
    (KvStore.remove s k).2.uncompacted = s.uncompacted ∧
    (KvStore.remove s k).2.files = s.files ∧
    (KvStore.remove s k).2.wbuf = s.wbuf ++ encodeCommand (.Rm k) ∧
    (KvStore.remove s k).2.wpos = s.wpos + (encodeCommand (.Rm k)).length ∧
    KvStore.get (KvStore.remove s k).2 k = .ok none := by
  have hfst := idxRemove_fst_of_lookup_none h
  rcases hval : idxRemove s.index k with ⟨fst, snd⟩
  rw [hval] at hfst
  simp only at hfst
  subst hfst
  refine ⟨?_, ?_, ?_, ?_, ?_, ?_, ?_⟩ <;>
    simp [KvStore.remove, KvStoreWriter.remove, hval, KvStore.get, h]

/-- C2 witness: the amended statement at the concrete empty store and key
`"a"`. -/
theorem claim_C2_witness :
    idxLookup sampleStore.index [97] = none ∧
    ((KvStore.remove sampleStore [97]).1 = .error .KeyNotFound ∧
      (KvStore.remove sampleStore [97]).2.index = sampleStore.index ∧
      (KvStore.remove sampleStore [97]).2.uncompacted = sampleStore.uncompacted ∧
      (KvStore.remove sampleStore [97]).2.files = sampleStore.files ∧
      (KvStore.remove sampleStore [97]).2.wbuf
        = sampleStore.wbuf ++ encodeCommand (.Rm [97]) ∧
      (KvStore.remove sampleStore [97]).2.wpos
        = sampleStore.wpos + (encodeCommand (.Rm [97])).length ∧
      KvStore.get (KvStore.remove sampleStore [97]).2 [97] = .ok none) :=
  ⟨by decide, claim_C2_remove_absent sampleStore [97] (by decide)⟩

/-- C3.  The claim (and spec §4.5) require a successful `remove`'s tombstone
to be flushed to the active segment's on-disk bytes before `remove` returns.
The code never calls `flush` in `KvStoreWriter::remove` (lines 369–378,
contrast `set`, line 355), so after `set("a","1"); remove("a")` the remove
returns `Ok` while the on-disk bytes of the active segment still lack the
tombstone — it sits in the `BufWriter` buffer.  This contradicts the spec's
stated durability invariant; the evaluation below exhibits the divergence. -/
theorem claim_C3_tombstone_not_flushed :
    (KvStore.remove (KvStore.set sampleStore [97] [49]) [97]).1 = .ok () ∧
    (KvStore.remove (KvStore.set sampleStore [97] [49]) [97]).2.activeDisk
      = (KvStore.set sampleStore [97] [49]).activeDisk ∧
    (KvStore.remove (KvStore.set sampleStore [97] [49]) [97]).2.wbuf
      = encodeCommand (.Rm [97]) := by
  decide

/-! ## C4: the compaction trigger -/

/-- C4 counterexample: the claim says a counter equal to the threshold
(1,048,576) initiates compaction, but the monitor thread's condition
(line 63) is the strict `uncompacted > MAX_WAL_SIZE_THRESHOLD`, which is
false at exactly the threshold. -/
theorem claim_C4_counterexample :
    MAX_WAL_SIZE_THRESHOLD = 1048576 ∧
    compactionTriggered 1048576 = false := by
  decide

/-- C4 (amended).  Compaction is initiated exactly when the writer's
uncompacted-byte counter is strictly greater than 1,048,576 bytes; a
counter equal to the threshold does not trigger it. -/
theorem claim_C4_trigger_strict (u : Nat) :
    compactionTriggered u = true ↔ 1048576 < u := by
  simp only [compactionTriggered, MAX_WAL_SIZE_THRESHOLD, gt_iff_lt,
    decide_eq_true_eq]

/-! ## C5, C6: compaction -/

/-- The byte range an index entry points at. -/
def sliceAt (files : Files) (cp : CommandPos) : List Nat :=
  (((getFile files cp.walfile_num).getD []).drop cp.pos).take cp.len

/-- The spec's description of the in-place index rewrite (§4.7, step 3):
walking the entries in order with a running cursor, an entry below the
compaction segment `c` becomes `(c, cursor, len)` — `len` the length of its
copied byte range — and advances the cursor; other entries are untouched. -/
def rewriteLive (c : Nat) (files : Files) : Index → Nat → Index
  | [], _ => []
  | (k, cp) :: rest, pos =>
      if cp.walfile_num < c then
        (k, ⟨c, pos, (sliceAt files cp).length⟩) ::
          rewriteLive c files rest (pos + (sliceAt files cp).length)
      else (k, cp) :: rewriteLive c files rest pos

/-- The bytes compaction writes: the concatenation, in index order, of the
byte ranges of the entries below the compaction segment. -/
def liveBytes (c : Nat) (files : Files) : Index → List Nat
  | [] => []
  | (_, cp) :: rest =>
      if cp.walfile_num < c then sliceAt files cp ++ liveBytes c files rest
      else liveBytes c files rest

theorem compactLoop_ok {c : Nat} {files : Files} {readers : List Nat} :
    ∀ {idx : Index} {pos : Nat} {out : Index × List Nat},
      compactLoop c files readers idx pos = .ok out →
      out.1 = rewriteLive c files idx pos ∧ out.2 = liveBytes c files idx := by
  intro idx
  induction idx with
  | nil =>
      intro pos out h
      simp only [compactLoop] at h
      cases h
      exact ⟨rfl, rfl⟩
  | cons e rest ih =>
      intro pos out h
      obtain ⟨k, cp⟩ := e
      by_cases hge : c ≤ cp.walfile_num
      · rw [compactLoop, if_pos hge] at h
        rcases hrec : compactLoop c files readers rest pos with e1 | r
        · rw [hrec] at h
          simp [Except.map] at h
        · rw [hrec] at h
          simp only [Except.map] at h
          cases h
          obtain ⟨h1, h2⟩ := ih hrec
          constructor
          · simp only [rewriteLive, if_neg (by omega : ¬ cp.walfile_num < c), h1]
          · simp only [liveBytes, if_neg (by omega : ¬ cp.walfile_num < c), h2]
      · rw [compactLoop, if_neg hge] at h
        by_cases hmem : cp.walfile_num ∈ readers
        · rw [if_pos hmem] at h
          rcases hfile : getFile files cp.walfile_num with _ | content
          · rw [hfile] at h
            cases h
          · rw [hfile] at h
            simp only at h
            rcases hrec : compactLoop c files readers rest
                (pos + ((content.drop cp.pos).take cp.len).length) with e1 | r
            · rw [hrec] at h
              simp [Except.map] at h
            · rw [hrec] at h
              simp only [Except.map] at h
              cases h
              obtain ⟨h1, h2⟩ := ih hrec
              have hslice : sliceAt files cp = (content.drop cp.pos).take cp.len := by
                rw [sliceAt, hfile]
                rfl
              constructor
              · simp only [rewriteLive, if_pos (by omega : cp.walfile_num < c),
                  hslice, h1]
              · simp only [liveBytes, if_pos (by omega : cp.walfile_num < c),
                  hslice, h2]
        · rw [if_neg hmem] at h
          cases h

theorem rewriteLive_walfile_ge {c : Nat} {files : Files} :
    ∀ {idx : Index} {pos : Nat} {e : List Nat × CommandPos},
      e ∈ rewriteLive c files idx pos → c ≤ e.2.walfile_num := by
  intro idx
  induction idx with
  | nil =>
      intro pos e h
      simp [rewriteLive] at h
  | cons hd rest ih =>
      intro pos e h
      obtain ⟨k, cp⟩ := hd
      by_cases hlt : cp.walfile_num < c
      · rw [rewriteLive, if_pos hlt, List.mem_cons] at h
        rcases h with h | h
        · subst h
          simp
        · exact ih h
      · rw [rewriteLive, if_neg hlt, List.mem_cons] at h
        rcases h with h | h
        · subst h
          show c ≤ cp.walfile_num
          omega
        · exact ih h

theorem rewriteLive_mem_of_ge {c : Nat} {files : Files} :
    ∀ {idx : Index} {pos : Nat} {e : List Nat × CommandPos},
      e ∈ idx → c ≤ e.2.walfile_num → e ∈ rewriteLive c files idx pos := by
  intro idx
  induction idx with
  | nil =>
      intro pos e h
      simp at h
  | cons hd rest ih =>
      intro pos e h hge
      obtain ⟨k, cp⟩ := hd
      rw [List.mem_cons] at h
      rcases h with h | h
      · subst h
        have hge2 : c ≤ cp.walfile_num := hge
        rw [rewriteLive, if_neg (by omega : ¬ cp.walfile_num < c)]
        exact List.mem_cons_self _ _
      · by_cases hlt : cp.walfile_num < c
        · rw [rewriteLive, if_pos hlt]
          exact List.mem_cons_of_mem _ (ih h hge)
        · rw [rewriteLive, if_neg hlt]
          exact List.mem_cons_of_mem _ (ih h hge)

theorem closeStaleGo_getFile_of_notMem (failRm : Nat → Bool) :
    ∀ (stale : List Nat) (files : Files) (readers : List Nat) (m : Nat),
      m ∉ stale →
      getFile (closeStaleGo failRm stale files readers).2.1 m = getFile files m := by
  intro stale
  induction stale with
  | nil =>
      intro files readers m hm
      rfl
  | cons n rest ih =>
      intro files readers m hm
      have hmn : m ≠ n := fun h => hm (h ▸ List.mem_cons_self n rest)
      have hmr : m ∉ rest := fun h => hm (List.mem_cons_of_mem _ h)
      by_cases hf : failRm n
      · simp only [closeStaleGo, hf, if_true]
      · simp only [closeStaleGo, hf, Bool.false_eq_true, if_false]
        rw [ih _ _ _ hmr, getFile_removeFileEntry_ne _ hmn]

/-- `add_reader` succeeds exactly when the segment was absent, and then only
appends it to the pool. -/
theorem add_reader_ok {s : KvStore} {n : Nat} {s1 : KvStore}
    (h : KvStoreReader.add_reader s n = .ok s1) :
    n ∉ s.readers ∧ s1 = { s with readers := s.readers ++ [n] } := by
  by_cases hmem : n ∈ s.readers
  · rw [KvStoreReader.add_reader, if_pos hmem] at h
    cases h
  · rw [KvStoreReader.add_reader, if_neg hmem] at h
    cases h
    exact ⟨hmem, rfl⟩

theorem run_compaction_ok_spec {failRm : Nat → Bool} {s : KvStore}
    (hok : (KvStoreWriter.run_compaction failRm s).1 = .ok ()) :
    (KvStoreWriter.run_compaction failRm s).2.uncompacted = 0 ∧
    (KvStoreWriter.run_compaction failRm s).2.active_wal = s.active_wal + 2 ∧
    (KvStoreWriter.run_compaction failRm s).2.index
      = rewriteLive (s.active_wal + 1) (rotatedFiles s) s.index 0 ∧
    getFile (KvStoreWriter.run_compaction failRm s).2.files (s.active_wal + 1)
      = some (((getFile (rotatedFiles s) (s.active_wal + 1)).getD [])
          ++ liveBytes (s.active_wal + 1) (rotatedFiles s) s.index) := by
  simp only [KvStoreWriter.run_compaction] at hok ⊢
  rcases haddA : KvStoreReader.add_reader
      { s with files := rotatedFiles s, active_wal := s.active_wal + 2,
               wbuf := [], wpos := 0 } (s.active_wal + 2) with eA | s2
  · rw [haddA] at hok
    simp at hok
  · rw [haddA] at hok
    simp only at hok ⊢
    obtain ⟨hA_notmem, hA_eq⟩ := add_reader_ok haddA
    rcases hloop : compactLoop (s.active_wal + 1) s2.files s2.readers s2.index 0
      with eL | out
    · rw [hloop] at hok
      simp at hok
    · obtain ⟨idx, cbytes⟩ := out
      rw [hloop] at hok
      simp only at hok ⊢
      have hs2files : s2.files = rotatedFiles s := by
        rw [hA_eq]
      have hs2index : s2.index = s.index := by
        rw [hA_eq]
      have hs2active : s2.active_wal = s.active_wal + 2 := by
        rw [hA_eq]
      obtain ⟨hidx, hbytes⟩ := compactLoop_ok hloop
      simp only at hidx hbytes
      rcases haddC : KvStoreReader.add_reader
          { s2 with index := idx,
                    files := setFile s2.files (s.active_wal + 1)
                      (((getFile s2.files (s.active_wal + 1)).getD []) ++ cbytes) }
          (s.active_wal + 1) with eC | s4
      · rw [haddC] at hok
        simp at hok
      · rw [haddC] at hok
        simp only at hok ⊢
        obtain ⟨hC_notmem, hC_eq⟩ := add_reader_ok haddC
        rcases hstale : close_stale_handles failRm (s.active_wal + 1)
            s4.files s4.readers with ⟨res, files1, readers1⟩
        rw [hstale] at hok
        rcases res with e1 | u
        · simp at hok
        · simp only at hok ⊢
          have hs4files : s4.files
              = setFile s2.files (s.active_wal + 1)
                  (((getFile s2.files (s.active_wal + 1)).getD []) ++ cbytes) := by
            rw [hC_eq]
          have hs4index : s4.index = idx := by
            rw [hC_eq]
          have hs4active : s4.active_wal = s.active_wal + 2 := by
            rw [hC_eq, hs2active]
          refine ⟨by trivial, hs4active, ?_, ?_⟩
          · rw [hs4index, hidx, hs2files, hs2index]
          · have hnot : s.active_wal + 1 ∉ s4.readers.filter
                (· < s.active_wal + 1) := by
              intro hmem
              have h1 := List.of_mem_filter hmem
              simp at h1
            have hfiles1 : files1 = (closeStaleGo failRm
                (s4.readers.filter (· < s.active_wal + 1)) s4.files s4.readers).2.1 := by
              rw [close_stale_handles] at hstale
              rw [hstale]
            rw [hfiles1,
              closeStaleGo_getFile_of_notMem failRm _ _ _ _ hnot,
              hs4files, getFile_setFile_self, hs2files, hbytes, hs2index,
              hs2files]

theorem rotatedFiles_fresh {s : KvStore}
    (h : getFile s.files (s.active_wal + 1) = none) :
    getFile (rotatedFiles s) (s.active_wal + 1) = some [] := by
  rw [rotatedFiles]
  rw [new_log_file, getFile_setFile_ne _ _
      (by omega : s.active_wal + 1 ≠ s.active_wal + 2),
    getFile_setFile_ne _ _ (by omega : s.active_wal + 1 ≠ s.active_wal),
    new_log_file, h, getFile_setFile_self]
  rfl

/-- C5.  A successful compaction run started with active segment `a`
reserves compaction segment `C = a + 1` and new active segment `A' = a + 2`;
every index entry with segment number `< C` is copied verbatim into `C` and
rewritten in place to `(C, pos, len)` with `pos` the running sum of the
lengths of the previously copied records (that is exactly what
`rewriteLive`/`liveBytes` compute: `C`'s content is the concatenation of
the live byte ranges in index order and each rewritten entry points at its
range); entries with segment number `≥ C` are left unchanged; afterwards
the uncompacted counter is zero.  `hfresh` says the reserved compaction
number is indeed fresh, which holds in every reachable state because the
active number is the largest ever used. -/
theorem claim_C5_compaction_procedure (failRm : Nat → Bool) (s : KvStore)
    (hok : (KvStoreWriter.run_compaction failRm s).1 = .ok ())
    (hfresh : getFile s.files (s.active_wal + 1) = none) :
    (KvStoreWriter.run_compaction failRm s).2.active_wal = s.active_wal + 2 ∧
    (KvStoreWriter.run_compaction failRm s).2.index
      = rewriteLive (s.active_wal + 1) (rotatedFiles s) s.index 0 ∧
    getFile (KvStoreWriter.run_compaction failRm s).2.files (s.active_wal + 1)
      = some (liveBytes (s.active_wal + 1) (rotatedFiles s) s.index) ∧
    (∀ e : List Nat × CommandPos, e ∈ s.index →
        s.active_wal + 1 ≤ e.2.walfile_num →
        e ∈ (KvStoreWriter.run_compaction failRm s).2.index) ∧
    (KvStoreWriter.run_compaction failRm s).2.uncompacted = 0 := by
  obtain ⟨hu, ha, hi, hf⟩ := run_compaction_ok_spec hok
  refine ⟨ha, hi, ?_, ?_, hu⟩
  · rw [hf, rotatedFiles_fresh hfresh]
    simp
  · intro e he hge
    rw [hi]
    exact rewriteLive_mem_of_ge he hge

/-- A store holding one key at segment 1, as after `open` on an empty
directory followed by one `set` (the uncompacted counter is arbitrary). -/
def demoStore : KvStore :=
  ⟨[([97], ⟨1, 0, 25⟩)], [(1, encodeCommand (.Set [97] [98]))], [1], 1, [], 25, 7⟩

/-- C5 witness: the compaction procedure at the concrete one-entry store. -/
theorem claim_C5_witness :
    (KvStoreWriter.run_compaction (fun _ => false) demoStore).1 = .ok () ∧
    getFile demoStore.files (demoStore.active_wal + 1) = none ∧
    ((KvStoreWriter.run_compaction (fun _ => false) demoStore).2.active_wal
        = demoStore.active_wal + 2 ∧
      (KvStoreWriter.run_compaction (fun _ => false) demoStore).2.index
        = rewriteLive (demoStore.active_wal + 1) (rotatedFiles demoStore)
            demoStore.index 0 ∧
      getFile (KvStoreWriter.run_compaction (fun _ => false) demoStore).2.files
          (demoStore.active_wal + 1)
        = some (liveBytes (demoStore.active_wal + 1) (rotatedFiles demoStore)
            demoStore.index) ∧
      (∀ e : List Nat × CommandPos, e ∈ demoStore.index →
          demoStore.active_wal + 1 ≤ e.2.walfile_num →
          e ∈ (KvStoreWriter.run_compaction (fun _ => false) demoStore).2.index) ∧
      (KvStoreWriter.run_compaction (fun _ => false) demoStore).2.uncompacted = 0) :=
  ⟨by decide, by decide,
    claim_C5_compaction_procedure (fun _ => false) demoStore (by decide) (by decide)⟩

/-- C6 (invariant I4).  After any successful compaction run, no index entry
references a segment numbered below the compaction segment
`C = active + 1`: surviving entries already sat at `≥ C` and every other
entry was re-pointed to `C` itself. -/
theorem claim_C6_no_stale_index_entries (failRm : Nat → Bool) (s : KvStore)
    (hok : (KvStoreWriter.run_compaction failRm s).1 = .ok ()) :
    ∀ e : List Nat × CommandPos,
      e ∈ (KvStoreWriter.run_compaction failRm s).2.index →
      s.active_wal + 1 ≤ e.2.walfile_num := by
  obtain ⟨-, -, hi, -⟩ := run_compaction_ok_spec hok
  intro e he
  rw [hi] at he
  exact rewriteLive_walfile_ge he

/-- C6 witness: invariant I4 at the concrete one-entry store. -/
theorem claim_C6_witness :
    (KvStoreWriter.run_compaction (fun _ => false) demoStore).1 = .ok () ∧
    (∀ e : List Nat × CommandPos,
      e ∈ (KvStoreWriter.run_compaction (fun _ => false) demoStore).2.index →
      demoStore.active_wal + 1 ≤ e.2.walfile_num) :=
  ⟨by decide,
    claim_C6_no_stale_index_entries (fun _ => false) demoStore (by decide)⟩

/-! ## C7: retiring stale segments -/

theorem getFile_eq_none_of_not_mem_keys {files : Files} {m : Nat}
    (h : m ∉ files.map Prod.fst) : getFile files m = none := by
  induction files with
  | nil => rfl
  | cons e rest ih =>
      obtain ⟨p, x⟩ := e
      simp only [List.map_cons, List.mem_cons] at h
      push_neg at h
      simp only [getFile, if_neg (Ne.symm h.1)]
      exact ih h.2

theorem removeFileEntry_keys_sublist (files : Files) (n : Nat) :
    ((removeFileEntry files n).map Prod.fst).Sublist (files.map Prod.fst) := by
  induction files with
  | nil => simp [removeFileEntry]
  | cons e rest ih =>
      obtain ⟨m, x⟩ := e
      by_cases hm : m = n
      · simp only [removeFileEntry, hm, if_true, List.map_cons]
        exact (List.sublist_cons_self _ _)
      · simp only [removeFileEntry, hm, if_false, List.map_cons]
        exact ih.cons₂ m

theorem removeFileEntry_keys_nodup {files : Files} {n : Nat}
    (h : (files.map Prod.fst).Nodup) :
    ((removeFileEntry files n).map Prod.fst).Nodup :=
  (removeFileEntry_keys_sublist files n).nodup h

theorem getFile_removeFileEntry_self {files : Files} {n : Nat}
    (h : (files.map Prod.fst).Nodup) :
    getFile (removeFileEntry files n) n = none := by
  induction files with
  | nil => rfl
  | cons e rest ih =>
      obtain ⟨m, x⟩ := e
      simp only [List.map_cons, List.nodup_cons] at h
      by_cases hm : m = n
      · subst hm
        simp only [removeFileEntry, if_pos rfl]
        exact getFile_eq_none_of_not_mem_keys h.1
      · simp only [removeFileEntry, hm, if_false, getFile, hm]
        exact ih h.2

theorem getFile_none_removeFileEntry {files : Files} {m k : Nat}
    (h : getFile files m = none) :
    getFile (removeFileEntry files k) m = none := by
  induction files with
  | nil => simp [removeFileEntry, getFile]
  | cons e rest ih =>
      obtain ⟨p, x⟩ := e
      by_cases hp : p = m
      · simp [getFile, hp] at h
      · simp only [getFile, hp, if_false] at h
        by_cases hk : p = k
        · simp only [removeFileEntry, hk, if_true]
          exact h
        · simp only [removeFileEntry, hk, if_false, getFile, hp, if_false]
          exact ih h

theorem closeStaleGo_preserves_none (failRm : Nat → Bool) :
    ∀ (stale : List Nat) (files : Files) (readers : List Nat) (m : Nat),
      getFile files m = none →
      getFile (closeStaleGo failRm stale files readers).2.1 m = none := by
  intro stale
  induction stale with
  | nil =>
      intro files readers m h
      exact h
  | cons n rest ih =>
      intro files readers m h
      by_cases hf : failRm n
      · simp only [closeStaleGo, hf, if_true]
        exact h
      · simp only [closeStaleGo, hf, Bool.false_eq_true, if_false]
        exact ih _ _ _ (getFile_none_removeFileEntry h)

theorem closeStaleGo_ok_spec (failRm : Nat → Bool) :
    ∀ (stale : List Nat) (files : Files) (readers : List Nat),
      (∀ n ∈ stale, failRm n = false) →
      (files.map Prod.fst).Nodup →
      (closeStaleGo failRm stale files readers).1 = .ok () ∧
      (closeStaleGo failRm stale files readers).2.2
        = stale.foldl List.erase readers ∧
      (∀ m ∈ stale, getFile (closeStaleGo failRm stale files readers).2.1 m = none) := by
  intro stale
  induction stale with
  | nil =>
      intro files readers hfail hnf
      refine ⟨rfl, rfl, ?_⟩
      intro m hm
      simp at hm
  | cons n rest ih =>
      intro files readers hfail hnf
      have hn : failRm n = false := hfail n (List.mem_cons_self _ _)
      simp only [closeStaleGo, hn, Bool.false_eq_true, if_false]
      have hrest : ∀ x ∈ rest, failRm x = false :=
        fun x hx => hfail x (List.mem_cons_of_mem _ hx)
      obtain ⟨h1, h2, h3⟩ := ih (removeFileEntry files n) (readers.erase n)
        hrest (removeFileEntry_keys_nodup hnf)
      refine ⟨h1, by rw [h2, List.foldl_cons], ?_⟩
      intro m hm
      rw [List.mem_cons] at hm
      rcases hm with hm | hm
      · subst hm
        exact closeStaleGo_preserves_none failRm _ _ _ _
          (getFile_removeFileEntry_self hnf)
      · exact h3 m hm

theorem closeStaleGo_fail_spec (failRm : Nat → Bool) :
    ∀ (stale : List Nat) (files : Files) (readers : List Nat) (f : Nat),
      f ∈ stale → failRm f = true →
      (closeStaleGo failRm stale files readers).1 = .error .Io ∧
      (f ∈ readers → f ∈ (closeStaleGo failRm stale files readers).2.2) ∧
      getFile (closeStaleGo failRm stale files readers).2.1 f
        = getFile files f := by
  intro stale
  induction stale with
  | nil =>
      intro files readers f hmem
      simp at hmem
  | cons n rest ih =>
      intro files readers f hmem hf
      by_cases hn : failRm n
      · simp only [closeStaleGo, hn, if_true]
        exact ⟨by trivial, by simp, by trivial⟩
      · have hfn : f ≠ n := by
          intro h
          rw [h] at hf
          rw [hf] at hn
          exact hn rfl
        have hfr : f ∈ rest := by
          rw [List.mem_cons] at hmem
          rcases hmem with h | h
          · exact absurd h hfn
          · exact h
        simp only [closeStaleGo, hn, Bool.false_eq_true, if_false]
        obtain ⟨h1, h2, h3⟩ := ih (removeFileEntry files n) (readers.erase n) f hfr hf
        refine ⟨h1, ?_, by rw [h3, getFile_removeFileEntry_ne _ hfn]⟩
        intro hfm
        exact h2 (List.mem_erase_of_ne hfn |>.mpr hfm)

theorem mem_foldl_erase :
    ∀ (stale readers : List Nat), readers.Nodup → ∀ n,
      (n ∈ stale.foldl List.erase readers ↔ n ∈ readers ∧ n ∉ stale) := by
  intro stale
  induction stale with
  | nil =>
      intro readers hnr n
      simp
  | cons m rest ih =>
      intro readers hnr n
      rw [List.foldl_cons]
      rw [ih (readers.erase m) (hnr.erase m) n]
      rw [hnr.mem_erase_iff]
      simp only [List.mem_cons]
      constructor
      · rintro ⟨⟨hne, hmem⟩, hrest⟩
        exact ⟨hmem, by
          push_neg
          exact ⟨hne, hrest⟩⟩
      · rintro ⟨hmem, hnot⟩
        push_neg at hnot
        exact ⟨⟨hnot.1, hmem⟩, hnot.2⟩

/-- C7 counterexample: with readers 1, 2, 5 and threshold 3, a removal
failure on segment 1 aborts the whole batch with an `Io` error — segment 2,
also below the threshold and itself removable, is left in the pool and its
file is left on disk, contradicting the claim that one failure does not
abort the batch. -/
theorem claim_C7_counterexample :
    close_stale_handles (fun n => n == 1) 3 [(1, []), (2, []), (5, [])] [1, 2, 5]
      = (.error .Io, [(1, []), (2, []), (5, [])], [1, 2, 5]) ∧
    (2 : Nat) ∈ (close_stale_handles (fun n => n == 1) 3
        [(1, []), (2, []), (5, [])] [1, 2, 5]).2.2 ∧
    getFile (close_stale_handles (fun n => n == 1) 3
        [(1, []), (2, []), (5, [])] [1, 2, 5]).2.1 2 = some [] := by
  decide

/-- C7 (amended).  `close_stale_handles(threshold)` walks the readers below
the threshold in pool order, deleting each file and closing its reader;
when no removal fails this retires exactly the segments below the threshold.
But `fs::remove_file` failures propagate with `?`, so a failing removal
aborts the batch: the call returns the `Io` error, and every failing
segment keeps both its reader and its file (only the fail-free segments
processed before the first failure are retired). -/
theorem claim_C7_retire_below (failRm : Nat → Bool) (t : Nat) (files : Files)
    (readers : List Nat) (hnr : readers.Nodup)
    (hnf : (files.map Prod.fst).Nodup) :
    ((∀ n ∈ readers, n < t → failRm n = false) →
      (close_stale_handles failRm t files readers).1 = .ok () ∧
      (∀ n, n ∈ (close_stale_handles failRm t files readers).2.2 ↔
          n ∈ readers ∧ ¬ n < t) ∧
      (∀ n ∈ readers, n < t →
        getFile (close_stale_handles failRm t files readers).2.1 n = none)) ∧
    (∀ f ∈ readers, f < t → failRm f = true →
      (close_stale_handles failRm t files readers).1 = .error .Io ∧
      f ∈ (close_stale_handles failRm t files readers).2.2 ∧
      getFile (close_stale_handles failRm t files readers).2.1 f
        = getFile files f) := by
  constructor
  · intro hfail
    have hstale : ∀ n ∈ readers.filter (· < t), failRm n = false := by
      intro n hn
      have h1 := List.mem_filter.mp hn
      exact hfail n h1.1 (by simpa using h1.2)
    obtain ⟨h1, h2, h3⟩ := closeStaleGo_ok_spec failRm
      (readers.filter (· < t)) files readers hstale hnf
    refine ⟨h1, ?_, ?_⟩
    · intro n
      rw [close_stale_handles, h2, mem_foldl_erase _ _ hnr n]
      simp only [List.mem_filter, decide_eq_true_eq]
      constructor
      · rintro ⟨hmem, hnot⟩
        exact ⟨hmem, fun hlt => hnot ⟨hmem, hlt⟩⟩
      · rintro ⟨hmem, hnot⟩
        exact ⟨hmem, fun hc => hnot hc.2⟩
    · intro n hn hlt
      exact h3 n (List.mem_filter.mpr ⟨hn, by simpa using hlt⟩)
  · intro f hf hlt hfailf
    have hmem : f ∈ readers.filter (· < t) :=
      List.mem_filter.mpr ⟨hf, by simpa using hlt⟩
    obtain ⟨h1, h2, h3⟩ := closeStaleGo_fail_spec failRm
      (readers.filter (· < t)) files readers f hmem hfailf
    exact ⟨h1, h2 hf, h3⟩

/-- C7 witness: the amended statement at a concrete pool with readers
1, 2, 5, threshold 3 and no removal failures. -/
theorem claim_C7_witness :
    ([1, 2, 5] : List Nat).Nodup ∧
    (([(1, [97]), (2, []), (5, [])] : Files).map Prod.fst).Nodup ∧
    (((∀ n ∈ ([1, 2, 5] : List Nat), n < 3 → (fun _ => false) n = false) →
      (close_stale_handles (fun _ => false) 3 [(1, [97]), (2, []), (5, [])]
          [1, 2, 5]).1 = .ok () ∧
      (∀ n, n ∈ (close_stale_handles (fun _ => false) 3
            [(1, [97]), (2, []), (5, [])] [1, 2, 5]).2.2 ↔
          n ∈ ([1, 2, 5] : List Nat) ∧ ¬ n < 3) ∧
      (∀ n ∈ ([1, 2, 5] : List Nat), n < 3 →
        getFile (close_stale_handles (fun _ => false) 3
            [(1, [97]), (2, []), (5, [])] [1, 2, 5]).2.1 n = none)) ∧
    (∀ f ∈ ([1, 2, 5] : List Nat), f < 3 → (fun _ => false) f = true →
      (close_stale_handles (fun _ => false) 3 [(1, [97]), (2, []), (5, [])]
          [1, 2, 5]).1 = .error .Io ∧
      f ∈ (close_stale_handles (fun _ => false) 3
          [(1, [97]), (2, []), (5, [])] [1, 2, 5]).2.2 ∧
      getFile (close_stale_handles (fun _ => false) 3
          [(1, [97]), (2, []), (5, [])] [1, 2, 5]).2.1 f
        = getFile [(1, [97]), (2, []), (5, [])] f)) :=
  ⟨by decide, by decide,
    claim_C7_retire_below (fun _ => false) 3 [(1, [97]), (2, []), (5, [])]
      [1, 2, 5] (by decide) (by decide)⟩

/-! ## C8: reader-pool point reads -/

/-- C8 counterexample: the error enum `KvsError` has no `SegmentMissing`
kind.  A point read whose segment has no registered reader fails with the
catch-all string kind `KvsError::Message` — the same constructor generic
errors such as `add_reader`'s duplicate-reader failure use — not with a
distinct kind as the claim states. -/
theorem claim_C8_counterexample :
    KvStoreReader.get sampleStore ⟨42, 0, 5⟩
      = .error (.Message "KvStoreReader: Reader not found") ∧
    (KvsError.Message "KvStoreReader: Reader not found").isMessageKind = true ∧
    KvStoreReader.add_reader sampleStore 1
      = .error (.Message "KvStoreReader: Reader already exists") ∧
    (KvsError.Message "KvStoreReader: Reader already exists").isMessageKind
      = true := by
  decide

/-- C8 (amended).  A reader-pool point read at position `p` decodes exactly
one record from `p`'s byte range: if the decoded record is a `Set` it
returns its value, and if it is any other record it fails with the
`InvalidCommand` kind; but when no reader is registered for `p`'s segment
number it fails with the generic `Message` string error ("KvStoreReader:
Reader not found"), there being no distinct `SegmentMissing` kind. -/
theorem claim_C8_reader_get (s : KvStore) (cp : CommandPos) :
    (cp.walfile_num ∉ s.readers →
      KvStoreReader.get s cp
        = .error (.Message "KvStoreReader: Reader not found")) ∧
    (∀ content : List Nat, cp.walfile_num ∈ s.readers →
      getFile s.files cp.walfile_num = some content →
      (∀ k v : List Nat,
        decodeExact ((content.drop cp.pos).take cp.len) = some (.Set k v) →
        KvStoreReader.get s cp = .ok (some v)) ∧
      (∀ c : Command,
        decodeExact ((content.drop cp.pos).take cp.len) = some c →
        (∀ k v : List Nat, c ≠ .Set k v) →
        KvStoreReader.get s cp = .error .InvalidCommand)) := by
  constructor
  · intro hmem
    simp only [KvStoreReader.get, if_neg hmem]
  · intro content hmem hfile
    constructor
    · intro k v hdec
      exact KvStoreReader_get_set_eval hmem hfile hdec
    · intro c hdec hne
      cases c with
      | Set k v => exact absurd rfl (hne k v)
      | Ping => simp only [KvStoreReader.get, if_pos hmem, hfile, hdec]
      | Get k => simp only [KvStoreReader.get, if_pos hmem, hfile, hdec]
      | Rm k => simp only [KvStoreReader.get, if_pos hmem, hfile, hdec]
      | Version => simp only [KvStoreReader.get, if_pos hmem, hfile, hdec]

/-- A store whose single segment holds one tombstone record, with the index
(unrealistically) still pointing at it — the shape that exercises the
`InvalidCommand` branch of a point read. -/
def rmStore : KvStore := ⟨[], [(1, encodeCommand (.Rm [97]))], [1], 1, [], 16, 0⟩

/-- C8 witness: reading a byte range that decodes to a tombstone yields the
`InvalidCommand` error. -/
theorem claim_C8_witness :
    (1 : Nat) ∈ rmStore.readers ∧
    getFile rmStore.files 1 = some (encodeCommand (.Rm [97])) ∧
    KvStoreReader.get rmStore ⟨1, 0, 16⟩ = .error .InvalidCommand :=
  ⟨by decide, by decide,
    ((claim_C8_reader_get rmStore ⟨1, 0, 16⟩).2 (encodeCommand (.Rm [97]))
        (by decide) (by decide)).2 (.Rm [97]) (by decide)
      (fun k v h => Command.noConfusion h)⟩

/-! ## C9: the segment-directory scan -/

theorem mem_insortNat (m n : Nat) :
    ∀ l : List Nat, (m ∈ insortNat n l ↔ m = n ∨ m ∈ l) := by
  intro l
  induction l with
  | nil => simp [insortNat]
  | cons a rest ih =>
      by_cases h : n ≤ a
      · simp [insortNat, h]
      · simp only [insortNat, h, if_false, List.mem_cons, ih]
        tauto

theorem insortNat_sorted (n : Nat) :
    ∀ l : List Nat, l.Sorted (· ≤ ·) → (insortNat n l).Sorted (· ≤ ·) := by
  intro l
  induction l with
  | nil =>
      intro h
      simp [insortNat]
  | cons a rest ih =>
      intro h
      rw [List.sorted_cons] at h
      by_cases hna : n ≤ a
      · simp only [insortNat, hna, if_true]
        rw [List.sorted_cons]
        refine ⟨?_, List.sorted_cons.mpr h⟩
        intro b hb
        rw [List.mem_cons] at hb
        rcases hb with hb | hb
        · exact hb ▸ hna
        · exact Nat.le_trans hna (h.1 b hb)
      · simp only [insortNat, hna, if_false]
        rw [List.sorted_cons]
        refine ⟨?_, ih h.2⟩
        intro b hb
        rw [mem_insortNat] at hb
        rcases hb with hb | hb
        · omega
        · exact h.1 b hb

theorem sortNats_sorted : ∀ l : List Nat, (sortNats l).Sorted (· ≤ ·) := by
  intro l
  induction l with
  | nil => simp [sortNats]
  | cons a rest ih => exact insortNat_sorted a _ ih

theorem mem_sortNats (m : Nat) : ∀ l : List Nat, (m ∈ sortNats l ↔ m ∈ l) := by
  intro l
  induction l with
  | nil => simp [sortNats]
  | cons a rest ih =>
      simp only [sortNats, mem_insortNat, ih, List.mem_cons]

/-- C9 counterexample: the claim says only names matching `wal_<digits>.log`
contribute and gives `123.log` as a name to ignore.  The code's
`trim_start_matches("wal_")` is a no-op on `123.log`, `trim_end_matches`
strips `.log`, and `"123".parse::<u64>()` succeeds — so `123.log`
contributes 123 (and `wal_9.log.log` contributes 9, both trims stripping
repeatedly), while the spec-modelled scan returns the empty list. -/
theorem claim_C9_counterexample :
    sorted_walfile_nums ["123.log".data, "x_wal_5.log".data, "wal_9.log.log".data]
      = [9, 123] ∧
    spec_walfile_nums ["123.log".data, "x_wal_5.log".data, "wal_9.log.log".data]
      = [] ∧
    sorted_walfile_nums ["123.log".data] ≠ spec_walfile_nums ["123.log".data] := by
  decide

/-- C9 (amended).  The scan returns, sorted ascending, exactly the values
obtained from each file name whose `extension()` is `log` by stripping every
leading `wal_`, stripping every trailing `.log`, and parsing the remainder
as `u64` (optional leading `+`, digits, value below `2^64`); names failing
that parse are ignored, and an empty directory yields the empty list.  In
particular `123.log` yields 123 while `x_wal_5.log` is ignored. -/
theorem claim_C9_scan (names : List (List Char)) :
    (sorted_walfile_nums names).Sorted (· ≤ ·) ∧
    (∀ n : Nat, n ∈ sorted_walfile_nums names ↔
      ∃ name ∈ names, walfileNumOfName name = some n) ∧
    sorted_walfile_nums [] = [] := by
  refine ⟨sortNats_sorted _, ?_, rfl⟩
  intro n
  rw [sorted_walfile_nums, mem_sortNats, List.mem_filterMap]

/-! ## C10: `open` starts with a zero uncompacted counter -/

/-- C10.  Whatever the directory holds, a successful `open` returns a store
whose uncompacted-byte counter is zero: `KvStoreReader::from_walfiles`
discards the stale-byte total each `load` computes (line 283), and
`KvStoreWriter::new` hard-codes `uncompacted: 0` (line 342), so stale bytes
recovered from before a restart never count toward the compaction trigger
until new operations displace entries again. -/
theorem claim_C10_open_uncompacted_zero (files : Files) (s : KvStore)
    (h : KvStore.open files = .ok s) : s.uncompacted = 0 := by
  rw [KvStore.open] at h
  rcases hfw : from_walfiles (sortNats (files.map Prod.fst)) files [] []
    with e | p
  · rw [hfw] at h
    cases h
  · obtain ⟨idx, readers⟩ := p
    rw [hfw] at h
    simp only at h
    by_cases hmem :
        (sortNats (files.map Prod.fst)).getLast?.getD 0 + 1 ∈ readers
    · rw [if_pos hmem] at h
      cases h
    · rw [if_neg hmem] at h
      cases h
      rfl

/-- A one-segment directory whose log holds two `Set` records for the same
key: replaying it makes the first record's 25 bytes stale. -/
def staleContent : List Nat :=
  encodeCommand (.Set [97] [49]) ++ encodeCommand (.Set [97] [50])

/-- The directory holding only `wal_1.log` with `staleContent`. -/
def staleDir : Files := [(1, staleContent)]

/-- The store `open` builds from `staleDir`. -/
def openedStale : KvStore :=
  ⟨[([97], ⟨1, 25, 25⟩)], [(1, staleContent), (2, [])], [1, 2], 2, [], 0, 0⟩

/-- C10 witness: opening the stale directory succeeds, the counter is zero,
and yet the startup replay did compute a positive stale-byte total (25 — the
superseded first record) which `from_walfiles` threw away. -/
theorem claim_C10_witness :
    KvStore.open staleDir = .ok openedStale ∧
    openedStale.uncompacted = 0 ∧
    load 1 staleContent [] = .ok (openedStale.index, 25) :=
  ⟨by decide,
    claim_C10_open_uncompacted_zero staleDir openedStale (by decide),
    by decide⟩
